import Mathlib

/-!
Verification development for the KallistiOS `wav2adpcm` tool
(aica adpcm <-> wave converter, `src/unnamed/part_000`) and the
sound-effect manager (`src/kernel/arch/dreamcast/sound/snd_sfxmgr.c`).

The C sources are shallowly embedded: machine `int` arithmetic is modelled
with `Int` (C integer division truncates toward zero, which is `Int.tdiv`),
byte buffers with `List Nat`, and the stdio stream with an explicit record
carrying the byte list, the file position and the end-of-file indicator.
-/

/-! ## Codec core (`diff_lookup`, `index_scale`, `limit`, `pcm2adpcm`, `adpcm2pcm`) -/

/-- Table `diff_lookup[16]` from the source. -/
def diff_lookup (val : Nat) : Int :=
  [1, 3, 5, 7, 9, 11, 13, 15, -1, -3, -5, -7, -9, -11, -13, -15].getD val 0

/-- Table `index_scale[16]` from the source; the second half repeats the
first half (the source comment reads: same value for speedup). -/
def index_scale (val : Nat) : Int :=
  [0xe6, 0xe6, 0xe6, 0xe6, 0x133, 0x199, 0x200, 0x266,
   0xe6, 0xe6, 0xe6, 0xe6, 0x133, 0x199, 0x200, 0x266].getD val 0

/-- `static inline int limit(int val, int min, int max)` from the source. -/
def limit (val min max : Int) : Int :=
  if val < min then min
  else if val > max then max
  else val

/-- Predictor state: the pair of C locals `(signal, step)` shared by
`pcm2adpcm` and `adpcm2pcm`. -/
structure AdpcmState where
  signal : Int
  step : Int
deriving DecidableEq

/-- Initial predictor state: `signal = 0; step = 0x7f;`. -/
def adpcmInit : AdpcmState := ⟨0, 0x7f⟩

/-- State update performed by the encoder `pcm2adpcm` after choosing the
4-bit code `val`:
`signal += (step * diff_lookup[val]) / 8; signal = limit(signal, -32768, 32767);`
`step = (step * index_scale[val]) >> 8; step = limit(step, 0x7f, 0x6000);`.
The right shift by 8 of the nonnegative product is truncating division
by 256. -/
def updateEnc (s : AdpcmState) (val : Nat) : AdpcmState :=
  let signal := s.signal + Int.tdiv (s.step * diff_lookup val) 8
  let signal := limit signal (-32768) 32767
  let step := Int.tdiv (s.step * index_scale val) 256
  let step := limit step 0x7f 0x6000
  ⟨signal, step⟩

/-- State update performed by the decoder `adpcm2pcm` on reading the 4-bit
code `val`: identical to the encoder update except that it indexes the
scale table with `val & 7`:
`step = (step * index_scale[val & 7]) >> 8;`. -/
def updateDec (s : AdpcmState) (val : Nat) : AdpcmState :=
  let signal := s.signal + Int.tdiv (s.step * diff_lookup val) 8
  let signal := limit signal (-32768) 32767
  let step := Int.tdiv (s.step * index_scale (val &&& 7)) 256
  let step := limit step 0x7f 0x6000
  ⟨signal, step⟩

/-- One per-sample step of `pcm2adpcm`: quantize `sample` against the
predictor, producing the 4-bit code and the updated state.
`diff = *src++ - signal; diff = (diff * 8) / step; val = abs(diff) / 2;`
`if (val > 7) val = 7; if (diff < 0) val += 8;` then the state update. -/
def encodeSample (s : AdpcmState) (sample : Int) : AdpcmState × Nat :=
  let diff := sample - s.signal
  let diff := Int.tdiv (diff * 8) s.step
  let v := diff.natAbs / 2
  let v := if v > 7 then 7 else v
  let val := if diff < 0 then v + 8 else v
  (updateEnc s val, val)

/-- One per-nibble step of `adpcm2pcm`: the updated (clamped) `signal` is
the emitted sample (`*dst++ = signal;`). -/
def decodeNibble (s : AdpcmState) (val : Nat) : AdpcmState × Int :=
  let s' := updateDec s val
  (s', s'.signal)

/-- Loop body of `pcm2adpcm`: each iteration consumes two samples; the
first sample's code becomes the low nibble of the output byte
(`data = val;`) and the second the high nibble (`data |= val << 4;`).
The fuel is the iteration count `(length + 3) / 4` computed by
`pcm2adpcm` from its byte-length argument.  Reads past the end of the
sample list (out-of-bounds reads in C) are modelled as zeros. -/
def pcm2adpcmLoop : AdpcmState → List Int → Nat → List Nat
  | _, _, 0 => []
  | s, src, n + 1 =>
    let e1 := encodeSample s (src.getD 0 0)
    let e2 := encodeSample e1.1 (src.getD 1 0)
    (e1.2 ||| (e2.2 <<< 4)) :: pcm2adpcmLoop e2.1 (src.drop 2) n

/-- `void pcm2adpcm(unsigned char *dst, const short *src, size_t length)`.
`length` is a byte count (the callers pass PCM byte sizes); the function
runs `length = (length + 3) / 4` iterations of the do-while loop, each
emitting one byte.  (For `length = 0` the C do-while underflows `size_t`;
that unreachable case is modelled as zero iterations.) -/
def pcm2adpcm (src : List Int) (length : Nat) : List Nat :=
  pcm2adpcmLoop adpcmInit src ((length + 3) / 4)

/-- Loop body of `adpcm2pcm`: each iteration consumes one byte and emits
two samples, low nibble (`data & 15`) first, then high nibble
(`(data >> 4) & 15`).  The fuel is the byte-count argument `length`. -/
def adpcm2pcmLoop : AdpcmState → List Nat → Nat → List Int
  | _, _, 0 => []
  | s, src, n + 1 =>
    let data := src.getD 0 0
    let d1 := decodeNibble s (data &&& 15)
    let d2 := decodeNibble d1.1 ((data >>> 4) &&& 15)
    d1.2 :: d2.2 :: adpcm2pcmLoop d2.1 (src.drop 1) n

/-- `void adpcm2pcm(short *dst, const unsigned char *src, size_t length)`:
decodes `length` input bytes into `2 * length` samples. -/
def adpcm2pcm (src : List Nat) (length : Nat) : List Int :=
  adpcm2pcmLoop adpcmInit src length

/-! ## Helper lemmas about the codec core -/

/-- Both bounds of `limit` hold whenever the bounds are ordered. -/
theorem limit_mem (val lo hi : Int) (h : lo ≤ hi) :
    lo ≤ limit val lo hi ∧ limit val lo hi ≤ hi := by
  unfold limit
  split_ifs <;> omega

/-- Invariant carried by the predictor state between nibbles. -/
def StateOK (s : AdpcmState) : Prop :=
  0x7f ≤ s.step ∧ s.step ≤ 0x6000 ∧ -32768 ≤ s.signal ∧ s.signal ≤ 32767

theorem updateDec_ok (s : AdpcmState) (val : Nat) : StateOK (updateDec s val) := by
  have h1 := limit_mem (s.signal + Int.tdiv (s.step * diff_lookup val) 8) (-32768) 32767
    (by omega)
  have h2 := limit_mem (Int.tdiv (s.step * index_scale (val &&& 7)) 256) 0x7f 0x6000
    (by omega)
  exact ⟨h2.1, h2.2, h1.1, h1.2⟩

theorem updateEnc_ok (s : AdpcmState) (val : Nat) : StateOK (updateEnc s val) := by
  have h1 := limit_mem (s.signal + Int.tdiv (s.step * diff_lookup val) 8) (-32768) 32767
    (by omega)
  have h2 := limit_mem (Int.tdiv (s.step * index_scale val) 256) 0x7f 0x6000
    (by omega)
  exact ⟨h2.1, h2.2, h1.1, h1.2⟩

theorem adpcm2pcmLoop_mem :
    ∀ (n : Nat) (s : AdpcmState) (src : List Nat) (x : Int),
      x ∈ adpcm2pcmLoop s src n → -32768 ≤ x ∧ x ≤ 32767 := by
  intro n
  induction n with
  | zero => intro s src x hx; simp [adpcm2pcmLoop] at hx
  | succ n ih =>
    intro s src x hx
    simp only [adpcm2pcmLoop, List.mem_cons] at hx
    rcases hx with rfl | hx
    · exact ⟨(updateDec_ok s _).2.2.1, (updateDec_ok s _).2.2.2⟩
    rcases hx with rfl | hx
    · exact ⟨(updateDec_ok _ _).2.2.1, (updateDec_ok _ _).2.2.2⟩
    · exact ih _ _ _ hx

theorem pcm2adpcmLoop_length :
    ∀ (n : Nat) (s : AdpcmState) (src : List Int), (pcm2adpcmLoop s src n).length = n := by
  intro n
  induction n with
  | zero => intro s src; rfl
  | succ n ih => intro s src; simp [pcm2adpcmLoop, ih]

theorem adpcm2pcmLoop_length :
    ∀ (n : Nat) (s : AdpcmState) (src : List Nat), (adpcm2pcmLoop s src n).length = 2 * n := by
  intro n
  induction n with
  | zero => intro s src; rfl
  | succ n ih =>
    intro s src
    simp only [adpcm2pcmLoop, List.length_cons, ih]
    omega

/-- The 4-bit code produced by the encoder is always below 16. -/
theorem encodeSample_code_lt (s : AdpcmState) (x : Int) : (encodeSample s x).2 < 16 := by
  simp only [encodeSample]
  split_ifs <;> omega

theorem or_shiftRight_distrib (a b i : Nat) :
    (a ||| b) >>> i = (a >>> i) ||| (b >>> i) := by
  apply Nat.eq_of_testBit_eq
  intro j
  simp [Nat.testBit_shiftRight, Nat.testBit_or]

/-- Low nibble of a packed byte recovers the first 4-bit code. -/
theorem encodeByte_low (v1 v2 : Nat) (h1 : v1 < 16) : (v1 ||| (v2 <<< 4)) &&& 15 = v1 := by
  have ha : v1 &&& 15 = v1 % 16 := Nat.and_pow_two_sub_one_eq_mod v1 4
  have hb : (v2 <<< 4) &&& 15 = (v2 <<< 4) % 16 := Nat.and_pow_two_sub_one_eq_mod _ 4
  have hz : (v2 <<< 4) % 16 = 0 := by
    rw [Nat.shiftLeft_eq]
    omega
  rw [Nat.and_distrib_right, ha, hb, hz, Nat.mod_eq_of_lt h1, Nat.or_zero]

/-- High nibble of a packed byte recovers the second 4-bit code. -/
theorem encodeByte_high (v1 v2 : Nat) (h1 : v1 < 16) (h2 : v2 < 16) :
    ((v1 ||| (v2 <<< 4)) >>> 4) &&& 15 = v2 := by
  have e1 : v1 >>> 4 = 0 := by
    rw [Nat.shiftRight_eq_div_pow]
    exact Nat.div_eq_of_lt h1
  have e2 : (v2 <<< 4) >>> 4 = v2 := by
    rw [Nat.shiftLeft_eq, Nat.shiftRight_eq_div_pow]
    exact Nat.mul_div_cancel v2 (by norm_num)
  have hc : v2 &&& 15 = v2 % 16 := Nat.and_pow_two_sub_one_eq_mod v2 4
  rw [or_shiftRight_distrib, e1, e2, Nat.zero_or, hc]
  exact Nat.mod_eq_of_lt h2

/-! ## Claims C1, C3, C4, C5 -/

/-- Claim C1: for every 4-bit code and every predictor state, the state
update performed by the encoder after choosing the code is identical to
the state update the decoder performs on reading the code; in particular
`index_scale[c] = index_scale[c & 7]`. -/
theorem c1_encoder_decoder_state_dual (s : AdpcmState) (val : Nat) (h : val < 16) :
    updateEnc s val = updateDec s val ∧ index_scale val = index_scale (val &&& 7) := by
  have hs : index_scale val = index_scale (val &&& 7) := by
    interval_cases val <;> decide
  refine ⟨?_, hs⟩
  unfold updateEnc updateDec
  rw [hs]

theorem c1_encoder_decoder_state_dual_witness :
    updateEnc ⟨0, 127⟩ 9 = updateDec ⟨0, 127⟩ 9 ∧ index_scale 9 = index_scale (9 &&& 7) :=
  c1_encoder_decoder_state_dual ⟨0, 127⟩ 9 (by decide)

/-- Claim C3: after every per-nibble state update of the decoder and every
per-sample update of the encoder the step lies in `[127, 24576]` and the
signal in `[-32768, 32767]`; the initial state satisfies the invariant,
and every decoded output sample lies in `[-32768, 32767]`. -/
theorem c3_clamping_invariant :
    (∀ (s : AdpcmState) (val : Nat), StateOK (decodeNibble s val).1)
    ∧ (∀ (s : AdpcmState) (x : Int), StateOK (encodeSample s x).1)
    ∧ StateOK adpcmInit
    ∧ (∀ (src : List Nat) (len : Nat) (x : Int),
        x ∈ adpcm2pcm src len → -32768 ≤ x ∧ x ≤ 32767) := by
  refine ⟨fun s val => updateDec_ok s val, fun s x => updateEnc_ok s _, ?_, ?_⟩
  · exact ⟨by decide, by decide, by decide, by decide⟩
  · intro src len x hx
    exact adpcm2pcmLoop_mem len adpcmInit src x hx

theorem c3_clamping_invariant_witness :
    -32768 ≤ (-15 : Int) ∧ (-15 : Int) ≤ 32767 :=
  c3_clamping_invariant.2.2.2 [136] 1 (-15) (by decide)

/-- Claim C4 counterexample: 4 PCM samples (8 bytes) encode to 2 output
bytes, not to the claimed `ceil(sample count / 4) = 1` bytes. -/
theorem c4_counterexample : (pcm2adpcm [0, 0, 0, 0] (2 * 4)).length ≠ (4 + 3) / 4 := by
  decide

/-- Claim C4 as amended: the core encode primitive emits
`ceil(length / 4)` bytes where `length` is its byte-count argument; with
`length = 2 * (sample count)` as passed by the container writer this is
`ceil(sample count / 2)` bytes (two samples per byte, not four); the
decoder expands each input byte into exactly 2 samples, so the decoded
PCM byte size is 4 times the ADPCM byte size. -/
theorem c4_packing_amended :
    (∀ (src : List Int) (len : Nat), (pcm2adpcm src len).length = (len + 3) / 4)
    ∧ (∀ src : List Int, (pcm2adpcm src (2 * src.length)).length = (src.length + 1) / 2)
    ∧ (∀ (src : List Nat) (len : Nat), (adpcm2pcm src len).length = 2 * len) := by
  refine ⟨fun src len => pcm2adpcmLoop_length _ _ _, fun src => ?_,
    fun src len => adpcm2pcmLoop_length _ _ _⟩
  rw [pcm2adpcm, pcm2adpcmLoop_length]
  omega

/-- Claim C5: the first sample of each pair produces the low nibble of
the output byte and the second the high nibble, and the decoder expands
each byte low nibble first, then high nibble. -/
theorem c5_nibble_order :
    (∀ (s : AdpcmState) (x1 x2 : Int) (src : List Int) (n : Nat),
      pcm2adpcmLoop s (x1 :: x2 :: src) (n + 1) =
        ((encodeSample s x1).2 ||| ((encodeSample (encodeSample s x1).1 x2).2 <<< 4)) ::
          pcm2adpcmLoop (encodeSample (encodeSample s x1).1 x2).1 src n
      ∧ ((encodeSample s x1).2 ||| ((encodeSample (encodeSample s x1).1 x2).2 <<< 4)) &&& 15
          = (encodeSample s x1).2
      ∧ (((encodeSample s x1).2 |||
            ((encodeSample (encodeSample s x1).1 x2).2 <<< 4)) >>> 4) &&& 15
          = (encodeSample (encodeSample s x1).1 x2).2)
    ∧ (∀ (t : AdpcmState) (b : Nat) (bs : List Nat) (m : Nat),
      adpcm2pcmLoop t (b :: bs) (m + 1) =
        (decodeNibble t (b &&& 15)).2 ::
          (decodeNibble (decodeNibble t (b &&& 15)).1 ((b >>> 4) &&& 15)).2 ::
          adpcm2pcmLoop (decodeNibble (decodeNibble t (b &&& 15)).1 ((b >>> 4) &&& 15)).1 bs m) := by
  refine ⟨fun s x1 x2 src n => ⟨rfl, ?_, ?_⟩, fun t b bs m => rfl⟩
  · exact encodeByte_low _ _ (encodeSample_code_lt _ _)
  · exact encodeByte_high _ _ (encodeSample_code_lt _ _) (encodeSample_code_lt _ _)

/-! ## Stereo transform (`deinterleave`, `interleave`) -/

/-- `void deinterleave(void *buffer, size_t size)`: `size` is a byte count
over a buffer of 16-bit samples.  The loop copies `buf[2i]` into a first
scratch half and `buf[2i+1]` into a second scratch half for
`i < size / 4`, then the two halves are copied back over the first
`2 * (size / 4)` samples of the buffer; any samples beyond that stay.
Out-of-range reads (buffer shorter than `size / 2` samples, heap garbage
in C) are modelled as zeros. -/
def deinterleave (buf : List Int) (size : Nat) : List Int :=
  (((List.range (size / 4)).map fun i => buf.getD (2 * i) 0)
    ++ ((List.range (size / 4)).map fun i => buf.getD (2 * i + 1) 0))
    ++ buf.drop (2 * (size / 4))

/-- `void interleave(void *buffer, size_t size)`: writes
`tmp[2i] = buf[i]; tmp[2i+1] = buf[size/4 + i]` for `i < size / 4` and
copies the scratch buffer back over the first `2 * (size / 4)` samples. -/
def interleave (buf : List Int) (size : Nat) : List Int :=
  (((List.range (size / 4)).map fun i => [buf.getD i 0, buf.getD (size / 4 + i) 0]).flatten)
    ++ buf.drop (2 * (size / 4))

theorem map_range_getD (f : Nat → Int) (n i : Nat) (h : i < n) :
    (((List.range n).map f).getD i 0) = f i := by
  simp [List.getD_eq_getElem?_getD, List.getElem?_map, List.getElem?_range, h]

/-- Flattening the index-paired samples of an even-length buffer restores
the buffer. -/
theorem flatten_pairs_eq :
    ∀ (n : Nat) (buf : List Int), buf.length = 2 * n →
      ((List.range n).map fun i => [buf.getD (2 * i) 0, buf.getD (2 * i + 1) 0]).flatten
        = buf := by
  intro n
  induction n with
  | zero =>
    intro buf h
    simp only [Nat.mul_zero] at h
    rw [List.eq_nil_of_length_eq_zero h]
    rfl
  | succ n ih =>
    intro buf h
    match buf, h with
    | a :: b :: rest, h =>
      have hr : rest.length = 2 * n := by
        simp only [List.length_cons] at h
        omega
      rw [List.range_succ_eq_map, List.map_cons, List.map_map, List.flatten_cons]
      have hstep :
          (List.map ((fun i => [(a :: b :: rest).getD (2 * i) 0,
              (a :: b :: rest).getD (2 * i + 1) 0]) ∘ Nat.succ) (List.range n))
          = List.map (fun i => [rest.getD (2 * i) 0, rest.getD (2 * i + 1) 0])
              (List.range n) := by
        apply List.map_congr_left
        intro i _
        have h2 : 2 * Nat.succ i = 2 * i + 1 + 1 := by omega
        have h3 : 2 * Nat.succ i + 1 = 2 * i + 1 + 1 + 1 := by omega
        simp only [Function.comp, h2, h3, List.getD_cons_succ]
      rw [hstep, ih rest hr]
      simp

/-- Claim C8: for every buffer with an even number of 16-bit samples,
interleaving the deinterleaved buffer (with the matching byte size
`2 * length`) restores the buffer exactly. -/
theorem c8_interleave_deinterleave (buf : List Int) (h : 2 ∣ buf.length) :
    interleave (deinterleave buf (2 * buf.length)) (2 * buf.length) = buf := by
  obtain ⟨n, hn⟩ := h
  have hq : 2 * buf.length / 4 = n := by omega
  set E := (List.range n).map fun i => buf.getD (2 * i) 0 with hE
  set O := (List.range n).map fun i => buf.getD (2 * i + 1) 0 with hO
  have hEl : E.length = n := by simp [hE]
  have hOl : O.length = n := by simp [hO]
  have hD : deinterleave buf (2 * buf.length) = E ++ O := by
    rw [deinterleave, hq, List.drop_eq_nil_of_le (by omega : buf.length ≤ 2 * n),
      List.append_nil]
  rw [hD, interleave, hq,
    List.drop_eq_nil_of_le (by simp only [List.length_append, hEl, hOl]; omega :
      (E ++ O).length ≤ 2 * n),
    List.append_nil]
  have hmap : (List.range n).map (fun i => [(E ++ O).getD i 0, (E ++ O).getD (n + i) 0])
      = (List.range n).map (fun i => [buf.getD (2 * i) 0, buf.getD (2 * i + 1) 0]) := by
    apply List.map_congr_left
    intro i hi
    rw [List.mem_range] at hi
    have e1 : (E ++ O).getD i 0 = buf.getD (2 * i) 0 := by
      rw [List.getD_append _ _ _ _ (by omega : i < E.length)]
      exact map_range_getD _ n i hi
    have e2 : (E ++ O).getD (n + i) 0 = buf.getD (2 * i + 1) 0 := by
      rw [List.getD_append_right _ _ _ _ (by omega : E.length ≤ n + i)]
      have hni : n + i - E.length = i := by omega
      rw [hni]
      exact map_range_getD _ n i hi
    rw [e1, e2]
  rw [hmap]
  exact flatten_pairs_eq n buf (by omega)

theorem c8_interleave_deinterleave_witness :
    interleave (deinterleave [1, 2, 3, 4] (2 * ([1, 2, 3, 4] : List Int).length))
      (2 * ([1, 2, 3, 4] : List Int).length) = [1, 2, 3, 4] :=
  c8_interleave_deinterleave [1, 2, 3, 4] (by decide)

/-! ## Sound-effect manager (`snd_sfxmgr.c`) -/

/-- `void snd_sfx_stop_all()`: iterates channels `0..63`, `continue`s on
exactly those whose bit in the `sfx_inuse` bitmask is set
(`if (sfx_inuse & (1 << i)) continue;`) and calls `snd_sfx_stop(i)` on
the rest.  The result lists the channel indices passed to
`snd_sfx_stop`, in order. -/
def snd_sfx_stop_all (sfx_inuse : Nat) : List Nat :=
  (List.range 64).filter fun i => (sfx_inuse &&& (1 <<< i)) == 0

/-- Claim C9: `snd_sfx_stop_all` issues a stop command exactly for the
channel indices in `[0, 64)` whose bit in `sfx_inuse` is clear, and never
for a channel whose in-use bit is set. -/
theorem c9_stop_all_targets_clear_bits (sfx_inuse i : Nat) :
    i ∈ snd_sfx_stop_all sfx_inuse ↔ i < 64 ∧ sfx_inuse.testBit i = false := by
  simp only [snd_sfx_stop_all, List.mem_filter, List.mem_range, beq_iff_eq,
    Nat.one_shiftLeft, Nat.and_two_pow]
  apply and_congr_right
  intro _
  cases htb : sfx_inuse.testBit i <;> simp [Nat.pow_eq_zero]

/-! ## Stdio stream model -/

/-- A C stdio stream opened in binary read mode: the file bytes, the
file-position indicator and the end-of-file indicator. -/
structure CFile where
  data : List Nat
  pos : Nat
  eof : Bool
deriving DecidableEq

/-- `fread` of one `k`-byte element: succeeds iff `k` bytes are available
at the current position (reading exactly up to the end does not raise the
indicator); on a short read the element is not stored (`fread` returns 0
and the destination is indeterminate, modelled by returning `none` so the
caller keeps the old value), the position moves to the end of the file
and the end-of-file indicator is set. -/
def freadBytes (f : CFile) (k : Nat) : Option (List Nat) × CFile :=
  if f.pos + k ≤ f.data.length then
    (some ((f.data.drop f.pos).take k), ⟨f.data, f.pos + k, f.eof⟩)
  else
    (none, ⟨f.data, f.data.length, true⟩)

/-- `fseek(f, target, SEEK_SET)` on a regular binary file: succeeds even
past the end of the file and clears the end-of-file indicator
(C99 7.19.9.2p5). -/
def fseek (f : CFile) (target : Nat) : CFile :=
  ⟨f.data, target, false⟩

/-- Little-endian 16-bit value of the first two bytes of a list. -/
def le16 (l : List Nat) : Nat := l.getD 0 0 + 256 * l.getD 1 0

/-- Little-endian 32-bit value of the first four bytes of a list. -/
def le32 (l : List Nat) : Nat :=
  l.getD 0 0 + 256 * l.getD 1 0 + 65536 * l.getD 2 0 + 16777216 * l.getD 3 0

/-- Little-endian 4-byte encoding of a 32-bit value. -/
def u32le (v : Nat) : List Nat :=
  [v % 256, v / 256 % 256, v / 65536 % 256, v / 16777216 % 256]

def freadU16 (f : CFile) : Option Nat × CFile :=
  let r := freadBytes f 2
  (r.1.map le16, r.2)

def freadU32 (f : CFile) : Option Nat × CFile :=
  let r := freadBytes f 4
  (r.1.map le32, r.2)

/-! ## Container reader/writer (`wav2adpcm`, `adpcm2wav`) -/

/-- The four bytes of the tag `RIFF`. -/
def riffID : List Nat := [82, 73, 70, 70]

/-- The first three bytes `RIF` of the tag: `wav2adpcm` compares only
three bytes (`memcmp(&wavhdr.hdr1[0], "RIFF", 3)`). -/
def rifID3 : List Nat := [82, 73, 70]

/-- The four bytes of the tag `WAVE`. -/
def waveID : List Nat := [87, 65, 86, 69]

/-- The eight bytes of `WAVEfmt ` checked by `adpcm2wav`. -/
def wavefmtID : List Nat := [87, 65, 86, 69, 102, 109, 116, 32]

/-- The four bytes of the chunk id `fmt `. -/
def fmtID : List Nat := [102, 109, 116, 32]

/-- The four bytes of the chunk id `data`. -/
def dataID : List Nat := [100, 97, 116, 97]

/-- The four bytes of the chunk id `smpl`. -/
def smplID : List Nat := [115, 109, 112, 108]

/-- The diagnostics the two converters can report before returning -1. -/
inductive ConvErr where
  | cannotOpen
  | cannotReadHeader
  | unsupportedFormat
  | truncatedHeader
  | cannotReadData
  | cannotWrite
deriving DecidableEq

/-- Locals of `wav2adpcm` live across the chunk walk.  The `wavhdr`
fields (`format` .. `bits`) are uninitialized in C until a `fmt ` chunk
is read; they are modelled as 0, and a failed `fread` keeps the previous
value. -/
structure WalkState where
  have_fmt : Bool := false
  format : Nat := 0
  channels : Nat := 0
  freq : Nat := 0
  byte_per_sec : Nat := 0
  blocksize : Nat := 0
  bits : Nat := 0
  nSampleLength : Nat := 0
  loopType : Nat := 0
  startLoop : Nat := 0
  endLoop : Nat := 0
  haveLoop : Bool := false
  pcmsize : Nat := 0
  pcmdata : List Nat := []
deriving DecidableEq

def walkInit : WalkState := {}

/-- Body of the `smpl` branch of the walk after its reads: `haveLoop` is
decided on the raw loop values before clamping; a `startLoop` above the
sample length resets to 0 and `endLoop` clamps to the sample length. -/
def smplUpdate (s : WalkState) (loopType startLoop endLoop : Nat) : WalkState :=
  let haveLoop := if loopType = 0 ∧ endLoop > 0 then true else s.haveLoop
  let startLoop := if startLoop > s.nSampleLength then 0 else startLoop
  let endLoop := if endLoop > s.nSampleLength then s.nSampleLength else endLoop
  { s with loopType := loopType, startLoop := startLoop, endLoop := endLoop
           haveLoop := haveLoop }

/-- The `for (;;)` chunk walk of `wav2adpcm` (fuel-indexed; the fuel
passed by `wav2adpcm` always suffices because every iteration advances
the position by at least 8 bytes).  Per iteration: four 1-byte `fread`s
of the chunk id, a 4-byte `fread` of the length, the `feof` check that
reports the truncated-header error, then the `smpl` branch (reads the
loop words and `break`s), the `fmt ` branch (reads and validates the
format fields), the `data` branch (validates and loads the payload), or
a skip; finally `fseek(start + len)` and a dead `feof` check (`fseek`
has just cleared the indicator). -/
def walkLoop : Nat → WalkState → CFile → Except ConvErr (WalkState × CFile)
  | 0, _, _ => Except.error ConvErr.truncatedHeader
  | n + 1, s, f =>
    let (dID?, fa) := freadBytes f 4
    let (len?, f1) := freadBytes fa 4
    if f1.eof then Except.error ConvErr.truncatedHeader
    else
      let dID := dID?.getD []
      let len := le32 (len?.getD [])
      let start := f1.pos
      if dID = smplID then
        let (_, fb) := freadBytes f1 36
        let (_, fc) := freadBytes fb 4
        let (lt?, fd) := freadU32 fc
        let (sl?, fe) := freadU32 fd
        let (el?, ff) := freadU32 fe
        let (_, fg) := freadBytes ff 4
        let (_, fh) := freadBytes fg 4
        Except.ok (smplUpdate s (lt?.getD s.loopType) (sl?.getD s.startLoop)
          (el?.getD s.endLoop), fh)
      else if dID = fmtID then
        let (fo?, fb) := freadU16 f1
        let (ch?, fc) := freadU16 fb
        let (fr?, fd) := freadU32 fc
        let (bp?, fe) := freadU32 fd
        let (bl?, ff) := freadU16 fe
        let (bi?, fg) := freadU16 ff
        let format := fo?.getD s.format
        let channels := ch?.getD s.channels
        if s.have_fmt ∨ (channels ≠ 1 ∧ channels ≠ 2) ∨ format ≠ 1 then
          Except.error ConvErr.unsupportedFormat
        else
          let s' := { s with have_fmt := true, format := format, channels := channels
                             freq := fr?.getD s.freq, byte_per_sec := bp?.getD s.byte_per_sec
                             blocksize := bl?.getD s.blocksize, bits := bi?.getD s.bits }
          let f2 := fseek fg (start + len)
          if f2.eof then Except.ok (s', f2) else walkLoop n s' f2
      else if dID = dataID then
        if ¬ s.have_fmt then Except.error ConvErr.unsupportedFormat
        else if s.blocksize ≠ 2 then Except.error ConvErr.unsupportedFormat
        else
          let (d?, fb) := freadBytes f1 len
          match d? with
          | none => Except.error ConvErr.cannotReadData
          | some d =>
            if len = 0 then Except.error ConvErr.cannotReadData
            else
              let s' := { s with nSampleLength := len >>> 1, pcmsize := len, pcmdata := d }
              let f2 := fseek fb (start + len)
              if f2.eof then Except.ok (s', f2) else walkLoop n s' f2
      else
        let f2 := fseek f1 (start + len)
        if f2.eof then Except.ok (s, f2) else walkLoop n s f2

/-- Lines after the walk: with no loop captured (`if (!endLoop)`) the
loop range defaults to the whole sample and looping is disabled. -/
def applyDefaultLoop (s : WalkState) : WalkState :=
  if s.endLoop = 0 then
    { s with startLoop := 0, endLoop := s.nSampleLength, haveLoop := false }
  else s

/-- The writer appends a `smpl` chunk carrying (loop type, loop start,
loop end) exactly when `haveLoop` is set. -/
def smplOut (s : WalkState) : Option (Nat × Nat × Nat) :=
  if s.haveLoop then some (s.loopType, s.startLoop, s.endLoop) else none

/-- Reinterpret two bytes as one little-endian signed 16-bit sample (the
C code reads file bytes directly into a `short` buffer on a
little-endian machine). -/
def toI16 (lo hi : Nat) : Int :=
  let v := lo % 256 + 256 * (hi % 256)
  if v < 32768 then (v : Int) else (v : Int) - 65536

def bytesToSamples : List Nat → List Int
  | lo :: hi :: rest => toI16 lo hi :: bytesToSamples rest
  | _ => []

/-- Serialize one signed 16-bit sample back to two little-endian bytes. -/
def i16leBytes (x : Int) : List Nat :=
  let v := (x % 65536).toNat
  [v % 256, v / 256]

def samplesToBytes (l : List Int) : List Nat := (l.map i16leBytes).flatten

/-- Structured form of the output file a converter writes: the `wavhdr_t`
fields, the payload bytes, and (for `wav2adpcm`) the optional trailing
`smpl` chunk as (loop type, loop start, loop end). -/
structure WavOutput where
  format : Nat
  channels : Nat
  freq : Nat
  byte_per_sec : Nat
  blocksize : Nat
  bits : Nat
  hdrsize : Nat
  datasize : Nat
  totalsize : Nat
  payload : List Nat
  smpl : Option (Nat × Nat × Nat)
deriving DecidableEq

/-- `int wav2adpcm(const char *infile, const char *outfile)` acting on
the bytes of the (successfully opened) input file.  The header reads and
magic checks copy the source exactly: the `RIFF` comparison is
`memcmp(&wavhdr.hdr1[0], "RIFF", 3)`, three bytes only.  The writer is
modelled structurally by `WavOutput`; the payload `fwrite` of
`adpcmsize` bytes returns 0 (an error) when `adpcmsize` is 0.  The
stereo path deinterleaves and encodes each half with half the PCM byte
size, concatenating the two encoded halves. -/
def wav2adpcm (input : List Nat) : Except ConvErr WavOutput :=
  let f0 : CFile := ⟨input, 0, false⟩
  match freadBytes f0 4 with
  | (none, _) => Except.error ConvErr.cannotReadHeader
  | (some hdr1, f1) =>
    match freadBytes f1 4 with
    | (none, _) => Except.error ConvErr.cannotReadHeader
    | (some _, f2) =>
      match freadBytes f2 4 with
      | (none, _) => Except.error ConvErr.cannotReadHeader
      | (some hdr2a, f3) =>
        if hdr1.take 3 ≠ rifID3 ∨ hdr2a ≠ waveID then
          Except.error ConvErr.unsupportedFormat
        else
          match walkLoop (input.length + 1) walkInit f3 with
          | Except.error e => Except.error e
          | Except.ok (s0, _) =>
            let adpcmsize := s0.pcmsize / 4
            let s1 := applyDefaultLoop s0
            let samples := bytesToSamples s1.pcmdata
            let adpcm :=
              if s1.channels = 1 then
                pcm2adpcm samples s1.pcmsize
              else
                let d := deinterleave samples s1.pcmsize
                pcm2adpcm (d.take (s1.pcmsize / 4)) (s1.pcmsize / 2)
                  ++ pcm2adpcm (d.drop (s1.pcmsize / 4)) (s1.pcmsize / 2)
            if adpcmsize = 0 then Except.error ConvErr.cannotWrite
            else
              Except.ok
                { format := 20, channels := s1.channels, freq := s1.freq
                  byte_per_sec := s1.byte_per_sec, blocksize := s1.blocksize
                  bits := 4, hdrsize := 16, datasize := adpcmsize
                  totalsize := adpcmsize + 44 - 8
                  payload := adpcm.take adpcmsize, smpl := smplOut s1 }

/-- `int adpcm2wav(const char *infile, const char *outfile)` acting on
the bytes of the input file: one 44-byte header `fread`, the combined
magic/format check (`RIFF`, `WAVEfmt `, `data`, header size 16,
format 20, 1 or 2 channels, 4 bits), then the payload read and decode.
The payload `fread` of `adpcmsize` bytes returns 0 (an error) when
`adpcmsize` is 0.  The stereo path decodes the two contiguous halves and
interleaves (for the byte counts the callers produce). -/
def adpcm2wav (input : List Nat) : Except ConvErr WavOutput :=
  let f0 : CFile := ⟨input, 0, false⟩
  match freadBytes f0 44 with
  | (none, _) => Except.error ConvErr.cannotReadHeader
  | (some hb, f1) =>
    let hdr1 := hb.take 4
    let hdr2 := (hb.drop 8).take 8
    let hdrsize := le32 (hb.drop 16)
    let format := le16 (hb.drop 20)
    let channels := le16 (hb.drop 22)
    let freq := le32 (hb.drop 24)
    let hdr3 := (hb.drop 36).take 4
    let datasize := le32 (hb.drop 40)
    if hdr1 ≠ riffID ∨ hdr2 ≠ wavefmtID ∨ hdr3 ≠ dataID ∨ hdrsize ≠ 16
        ∨ format ≠ 20 ∨ (channels ≠ 1 ∧ channels ≠ 2) ∨ le16 (hb.drop 34) ≠ 4 then
      Except.error ConvErr.unsupportedFormat
    else
      let adpcmsize := datasize
      let pcmsize := adpcmsize * 4
      match (freadBytes f1 adpcmsize).1 with
      | none => Except.error ConvErr.cannotReadData
      | some ad =>
        if adpcmsize = 0 then Except.error ConvErr.cannotReadData
        else
          let pcm :=
            if channels = 1 then adpcm2pcm ad adpcmsize
            else
              interleave (adpcm2pcm (ad.take (adpcmsize / 2)) (adpcmsize / 2)
                ++ adpcm2pcm (ad.drop (adpcmsize / 2)) (adpcmsize / 2)) pcmsize
          Except.ok
            { format := 1, channels := channels, freq := freq
              byte_per_sec := freq * (channels * 2), blocksize := channels * 2
              bits := 16, hdrsize := hdrsize, datasize := pcmsize
              totalsize := pcmsize + 44 - 8, payload := samplesToBytes pcm
              smpl := none }

/-! ## Chunk serialization and stream lemmas -/

/-- Byte layout of one RIFF chunk: 4-byte id, little-endian 32-bit
length, payload. -/
def serializeChunk (c : List Nat × List Nat) : List Nat :=
  c.1 ++ u32le c.2.length ++ c.2

def serializeChunks (cs : List (List Nat × List Nat)) : List Nat :=
  (cs.map serializeChunk).flatten

theorem freadBytes_ok (f : CFile) (k : Nat) (h : f.pos + k ≤ f.data.length) :
    freadBytes f k = (some ((f.data.drop f.pos).take k), ⟨f.data, f.pos + k, f.eof⟩) := by
  simp [freadBytes, h]

theorem freadBytes_fail (f : CFile) (k : Nat) (h : ¬ (f.pos + k ≤ f.data.length)) :
    freadBytes f k = (none, ⟨f.data, f.data.length, true⟩) := by
  simp [freadBytes, h]

/-! ## Claims C2 and C6 -/

/-- A minimal well-formed PCM WAV: `RIFF` header, `fmt ` chunk
(format 1, mono, 8000 Hz, byte rate 16000, block align 2, 16 bits),
`data` chunk of 4 bytes, and no `smpl` chunk. -/
def c2Input : List Nat :=
  riffID ++ u32le 48 ++ waveID
    ++ serializeChunk (fmtID, [1, 0, 1, 0] ++ u32le 8000 ++ u32le 16000 ++ [2, 0, 16, 0])
    ++ serializeChunk (dataID, [7, 0, 7, 0])

/-- Claim C2 (code bug): on a well-formed PCM WAV whose chunks are
`fmt ` then `data` with no `smpl`, the conversion does not return
success.  `fseek` clears the end-of-file indicator (C99 7.19.9.2p5), so
the `if (feof(in)) break;` after the seek never fires; the next
iteration's failed chunk-header reads set the indicator and the walk
reports the truncated-header diagnostic and returns -1. -/
theorem c2_eof_at_chunk_boundary_errors :
    wav2adpcm c2Input = Except.error ConvErr.truncatedHeader := by
  rfl

/-- Claim C6 counterexample: an input whose first four bytes are `RIFX`
(not `RIFF`) but whose bytes 8..11 are `WAVE` passes the `wav2adpcm`
magic check, which compares only three bytes of `RIFF`; the run fails
later with the truncated-header diagnostic, not the malformed-container
diagnostic the claim requires. -/
theorem c6_counterexample :
    wav2adpcm ([82, 73, 70, 88] ++ u32le 0 ++ waveID)
        = Except.error ConvErr.truncatedHeader
    ∧ ([82, 73, 70, 88] ++ u32le 0 ++ waveID).take 4 ≠ riffID := by
  exact ⟨by rfl, by decide⟩

/-- Claim C6 as amended: `wav2adpcm` rejects with the malformed-container
diagnostic exactly when the first three bytes are not `RIF` or bytes
8..11 are not `WAVE` (the `RIFF` comparison reads only 3 bytes);
`adpcm2wav` rejects every header whose first four bytes are not `RIFF`
or whose bytes 8..11 are not `WAVE`. -/
theorem c6_magic_check_amended :
    (∀ input : List Nat, 12 ≤ input.length →
      input.take 3 ≠ rifID3 ∨ (input.drop 8).take 4 ≠ waveID →
      wav2adpcm input = Except.error ConvErr.unsupportedFormat)
    ∧ (∀ input : List Nat, 44 ≤ input.length →
      input.take 4 ≠ riffID ∨ (input.drop 8).take 4 ≠ waveID →
      adpcm2wav input = Except.error ConvErr.unsupportedFormat) := by
  constructor
  · intro input hlen hmagic
    have e1 : freadBytes (⟨input, 0, false⟩ : CFile) 4
        = (some (input.take 4), ⟨input, 4, false⟩) :=
      freadBytes_ok _ _ (by simp only; omega)
    have e2 : freadBytes (⟨input, 4, false⟩ : CFile) 4
        = (some ((input.drop 4).take 4), ⟨input, 8, false⟩) :=
      freadBytes_ok _ _ (by simp only; omega)
    have e3 : freadBytes (⟨input, 8, false⟩ : CFile) 4
        = (some ((input.drop 8).take 4), ⟨input, 12, false⟩) :=
      freadBytes_ok _ _ (by simp only; omega)
    have ht : (input.take 4).take 3 = input.take 3 := by
      rw [List.take_take, (by decide : (3 : Nat) ⊓ 4 = 3)]
    simp only [wav2adpcm, e1, e2, e3, ht]
    rw [if_pos hmagic]
  · intro input hlen hmagic
    have e1 : freadBytes (⟨input, 0, false⟩ : CFile) 44
        = (some (input.take 44), ⟨input, 44, false⟩) :=
      freadBytes_ok _ _ (by simp only; omega)
    have hcond : (input.take 44).take 4 ≠ riffID
        ∨ ((input.take 44).drop 8).take 8 ≠ wavefmtID
        ∨ ((input.take 44).drop 36).take 4 ≠ dataID
        ∨ le32 ((input.take 44).drop 16) ≠ 16
        ∨ le16 ((input.take 44).drop 20) ≠ 20
        ∨ (le16 ((input.take 44).drop 22) ≠ 1 ∧ le16 ((input.take 44).drop 22) ≠ 2)
        ∨ le16 ((input.take 44).drop 34) ≠ 4 := by
      rcases hmagic with h | h
      · left
        intro hc
        apply h
        rwa [List.take_take, (by decide : (4 : Nat) ⊓ 44 = 4)] at hc
      · right; left
        intro hc
        apply h
        have hc4 := congrArg (List.take 4) hc
        rw [List.take_take, (by decide : (4 : Nat) ⊓ 8 = 4), List.drop_take, List.take_take,
          (by decide : (4 : Nat) ⊓ (44 - 8) = 4)] at hc4
        exact hc4.trans (by decide)
    simp only [adpcm2wav, e1]
    rw [if_pos hcond]

theorem c6_magic_check_amended_witness :
    wav2adpcm ([0, 0, 0, 0, 0, 0, 0, 0] ++ waveID) = Except.error ConvErr.unsupportedFormat
    ∧ adpcm2wav (List.replicate 44 0) = Except.error ConvErr.unsupportedFormat :=
  ⟨c6_magic_check_amended.1 _ (by decide) (by decide),
   c6_magic_check_amended.2 _ (by decide) (by decide)⟩

theorem cfile_step (A B R : List Nat) (k : Nat) (e : Bool) (hB : B.length = k) :
    (⟨A ++ (B ++ R), A.length + k, e⟩ : CFile) = ⟨(A ++ B) ++ R, (A ++ B).length, e⟩ := by
  rw [← List.append_assoc]
  congr 1
  simp [hB]

/-- Reading one exact-length element advances the stream past it. -/
theorem freadBytes_step (A B R : List Nat) (k : Nat) (e : Bool) (hB : B.length = k) :
    freadBytes ⟨A ++ (B ++ R), A.length, e⟩ k
      = (some B, ⟨(A ++ B) ++ R, (A ++ B).length, e⟩) := by
  have h : (⟨A ++ (B ++ R), A.length, e⟩ : CFile).pos + k
      ≤ (⟨A ++ (B ++ R), A.length, e⟩ : CFile).data.length := by
    simp only [List.length_append]
    omega
  rw [freadBytes_ok _ _ h]
  dsimp only
  rw [List.drop_left, List.take_left' hB, cfile_step A B R k e hB]

/-- One walk iteration on a `smpl` chunk, with the payload given as its
layout pieces (36 reserved bytes, one reserved word, loop type, loop
start, loop end, two trailing words, remainder): the walk reads the loop
words and `break`s with the `smplUpdate` of their little-endian values. -/
theorem walkLoop_smpl (n : Nat) (s : WalkState) (A L W1 T ltW slW elW T2 T3 R : List Nat)
    (hL : L.length = 4) (h1 : W1.length = 36) (hT : T.length = 4) (hlt : ltW.length = 4)
    (hsl : slW.length = 4) (hel : elW.length = 4) (hT2 : T2.length = 4) (hT3 : T3.length = 4) :
    walkLoop (n + 1) s
        ⟨A ++ (smplID ++ (L ++ (W1 ++ (T ++ (ltW ++ (slW ++ (elW ++ (T2 ++ (T3 ++ R))))))))),
         A.length, false⟩
      = Except.ok (smplUpdate s (le32 ltW) (le32 slW) (le32 elW),
          ⟨(((((((((A ++ smplID) ++ L) ++ W1) ++ T) ++ ltW) ++ slW) ++ elW) ++ T2) ++ T3) ++ R,
           ((((((((((A ++ smplID) ++ L) ++ W1) ++ T) ++ ltW) ++ slW) ++ elW) ++ T2) ++ T3)).length,
           false⟩) := by
  rw [walkLoop.eq_2]
  rw [freadBytes_step A smplID _ 4 false rfl]
  dsimp only
  rw [freadBytes_step (A ++ smplID) L _ 4 false hL]
  dsimp only [Option.getD]
  rw [if_pos rfl]
  dsimp only [freadU32]
  rw [freadBytes_step ((A ++ smplID) ++ L) W1 _ 36 false h1]
  dsimp only
  rw [freadBytes_step (((A ++ smplID) ++ L) ++ W1) T _ 4 false hT]
  dsimp only
  rw [freadBytes_step ((((A ++ smplID) ++ L) ++ W1) ++ T) ltW _ 4 false hlt]
  dsimp only
  rw [freadBytes_step (((((A ++ smplID) ++ L) ++ W1) ++ T) ++ ltW) slW _ 4 false hsl]
  dsimp only
  rw [freadBytes_step ((((((A ++ smplID) ++ L) ++ W1) ++ T) ++ ltW) ++ slW) elW _ 4 false hel]
  dsimp only
  rw [freadBytes_step (((((((A ++ smplID) ++ L) ++ W1) ++ T) ++ ltW) ++ slW) ++ elW) T2 _ 4
    false hT2]
  dsimp only
  rw [freadBytes_step ((((((((A ++ smplID) ++ L) ++ W1) ++ T) ++ ltW) ++ slW) ++ elW) ++ T2) T3
    _ 4 false hT3]
  dsimp only [Option.map, Option.getD]
  rw [if_neg Bool.false_ne_true]

/-- Splitting a suffix of a list at an arbitrary point. -/
theorem drop_split (c k : Nat) (P : List Nat) :
    P.drop c = (P.drop c).take k ++ P.drop (c + k) := by
  conv_rhs => rw [← List.drop_drop]
  rw [List.take_append_drop]

/-- Decomposition of a `smpl` chunk payload into its layout pieces. -/
theorem smpl_payload_split (P : List Nat) :
    P = P.take 36 ++ ((P.drop 36).take 4 ++ ((P.drop 40).take 4 ++ ((P.drop 44).take 4
      ++ ((P.drop 48).take 4 ++ ((P.drop 52).take 4 ++ ((P.drop 56).take 4
        ++ P.drop 60)))))) := by
  conv_lhs => rw [← List.take_append_drop 36 P]
  congr 1
  conv_lhs => rw [drop_split 36 4 P]
  norm_num
  conv_lhs => rw [drop_split 40 4 P]
  norm_num
  conv_lhs => rw [drop_split 44 4 P]
  norm_num
  conv_lhs => rw [drop_split 48 4 P]
  norm_num
  conv_lhs => rw [drop_split 52 4 P]
  norm_num
  conv_lhs => rw [drop_split 56 4 P]

/-- Decomposition of a `fmt ` chunk payload into its field pieces. -/
theorem fmt_payload_split (P : List Nat) :
    P = P.take 2 ++ ((P.drop 2).take 2 ++ ((P.drop 4).take 4 ++ ((P.drop 8).take 4
      ++ ((P.drop 12).take 2 ++ ((P.drop 14).take 2 ++ P.drop 16))))) := by
  conv_lhs => rw [← List.take_append_drop 2 P]
  congr 1
  conv_lhs => rw [drop_split 2 2 P]
  norm_num
  conv_lhs => rw [drop_split 4 4 P]
  norm_num
  conv_lhs => rw [drop_split 8 4 P]
  norm_num
  conv_lhs => rw [drop_split 12 2 P]
  norm_num
  conv_lhs => rw [drop_split 14 2 P]

/-- One walk iteration on a chunk that is neither `smpl` nor `fmt ` nor
`data`: the reads and the `fseek` skip it and the walk continues
unchanged after the payload. -/
theorem walkLoop_skip (n : Nat) (s : WalkState) (A cid L P R : List Nat)
    (hcid : cid.length = 4) (hL : L.length = 4) (hlen : le32 L = P.length)
    (hns : cid ≠ smplID) (hnf : cid ≠ fmtID) (hnd : cid ≠ dataID) :
    walkLoop (n + 1) s ⟨A ++ (cid ++ (L ++ (P ++ R))), A.length, false⟩
      = walkLoop n s
          ⟨(((A ++ cid) ++ L) ++ P) ++ R, (((A ++ cid) ++ L) ++ P).length, false⟩ := by
  rw [walkLoop.eq_2]
  rw [freadBytes_step A cid _ 4 false hcid]
  dsimp only
  rw [freadBytes_step (A ++ cid) L _ 4 false hL]
  dsimp only [Option.getD]
  rw [if_neg hns, if_neg hnf, if_neg hnd]
  dsimp only [fseek]
  rw [if_neg Bool.false_ne_true]
  have hd : ((A ++ cid) ++ L) ++ (P ++ R) = (((A ++ cid) ++ L) ++ P) ++ R :=
    (List.append_assoc _ _ _).symm
  have hp : ((A ++ cid) ++ L).length + le32 L = ((((A ++ cid) ++ L) ++ P)).length := by
    simp only [List.length_append, hlen]
  rw [hd, hp]
  rw [if_neg Bool.false_ne_true]

/-- One walk iteration on a valid `fmt ` chunk (payload given as its six
field pieces plus remainder): the walk records the fields, sets
`have_fmt` and continues after the chunk. -/
theorem walkLoop_fmt (n : Nat) (s : WalkState) (A L F1 F2 F3 F4 F5 F6 Q : List Nat)
    (hL : L.length = 4) (h1 : F1.length = 2) (h2 : F2.length = 2) (h3 : F3.length = 4)
    (h4 : F4.length = 4) (h5 : F5.length = 2) (h6 : F6.length = 2)
    (hfmt : s.have_fmt = false)
    (hfo : le16 F1 = 1) (hch : le16 F2 = 1 ∨ le16 F2 = 2) :
    walkLoop (n + 1) s
        ⟨A ++ (fmtID ++ (L ++ (F1 ++ (F2 ++ (F3 ++ (F4 ++ (F5 ++ (F6 ++ Q)))))))),
         A.length, false⟩
      = walkLoop n
          { s with have_fmt := true, format := le16 F1, channels := le16 F2
                   freq := le32 F3, byte_per_sec := le32 F4
                   blocksize := le16 F5, bits := le16 F6 }
          ⟨((((((((A ++ fmtID) ++ L) ++ F1) ++ F2) ++ F3) ++ F4) ++ F5) ++ F6) ++ Q,
           ((A ++ fmtID) ++ L).length + le32 L, false⟩ := by
  rw [walkLoop.eq_2]
  rw [freadBytes_step A fmtID _ 4 false rfl]
  dsimp only
  rw [freadBytes_step (A ++ fmtID) L _ 4 false hL]
  dsimp only [Option.getD]
  rw [if_neg (show ¬(fmtID = smplID) by decide), if_pos rfl]
  dsimp only [freadU16, freadU32]
  rw [freadBytes_step ((A ++ fmtID) ++ L) F1 _ 2 false h1]
  dsimp only
  rw [freadBytes_step (((A ++ fmtID) ++ L) ++ F1) F2 _ 2 false h2]
  dsimp only
  rw [freadBytes_step ((((A ++ fmtID) ++ L) ++ F1) ++ F2) F3 _ 4 false h3]
  dsimp only
  rw [freadBytes_step (((((A ++ fmtID) ++ L) ++ F1) ++ F2) ++ F3) F4 _ 4 false h4]
  dsimp only
  rw [freadBytes_step ((((((A ++ fmtID) ++ L) ++ F1) ++ F2) ++ F3) ++ F4) F5 _ 2 false h5]
  dsimp only
  rw [freadBytes_step (((((((A ++ fmtID) ++ L) ++ F1) ++ F2) ++ F3) ++ F4) ++ F5) F6 _ 2
    false h6]
  dsimp only [Option.map, Option.getD]
  have hvc : ¬(s.have_fmt = true ∨ (le16 F2 ≠ 1 ∧ le16 F2 ≠ 2) ∨ le16 F1 ≠ 1) := by
    rw [hfmt]
    simp only [Bool.false_eq_true, false_or, not_or, not_and, not_not, Decidable.not_not]
    constructor
    · intro hne1
      rcases hch with h | h
      · exact absurd h hne1
      · exact h
    · exact hfo
  rw [if_neg hvc]
  dsimp only [fseek]
  rw [if_neg Bool.false_ne_true]
  rw [if_neg Bool.false_ne_true]

/-- `walkLoop_smpl` restated with the loop words as slices of the
payload: a `smpl` chunk with at least the fixed 60 payload bytes makes
the walk `break` with the clamped loop values. -/
theorem walkLoop_smpl_slices (n : Nat) (s : WalkState) (A L P R : List Nat)
    (hL : L.length = 4) (hP : 60 ≤ P.length) :
    ∃ f' : CFile,
      walkLoop (n + 1) s ⟨A ++ (smplID ++ (L ++ (P ++ R))), A.length, false⟩
        = Except.ok (smplUpdate s (le32 ((P.drop 40).take 4)) (le32 ((P.drop 44).take 4))
            (le32 ((P.drop 48).take 4)), f') := by
  have hdata : P ++ R = P.take 36 ++ ((P.drop 36).take 4 ++ ((P.drop 40).take 4
      ++ ((P.drop 44).take 4 ++ ((P.drop 48).take 4 ++ ((P.drop 52).take 4
      ++ ((P.drop 56).take 4 ++ (P.drop 60 ++ R))))))) := by
    conv_lhs => rw [smpl_payload_split P]
    simp only [List.append_assoc]
  have key := walkLoop_smpl n s A L (P.take 36) ((P.drop 36).take 4) ((P.drop 40).take 4)
    ((P.drop 44).take 4) ((P.drop 48).take 4) ((P.drop 52).take 4) ((P.drop 56).take 4)
    (P.drop 60 ++ R) hL
    (by simp only [List.length_take]; omega)
    (by simp only [List.length_take, List.length_drop]; omega)
    (by simp only [List.length_take, List.length_drop]; omega)
    (by simp only [List.length_take, List.length_drop]; omega)
    (by simp only [List.length_take, List.length_drop]; omega)
    (by simp only [List.length_take, List.length_drop]; omega)
    (by simp only [List.length_take, List.length_drop]; omega)
  rw [← hdata] at key
  exact ⟨_, key⟩

/-- `walkLoop_fmt` restated with the format fields as slices of the
payload. -/
theorem walkLoop_fmt_slices (n : Nat) (s : WalkState) (A L P R : List Nat)
    (hL : L.length = 4) (hP : 16 ≤ P.length) (hlen : le32 L = P.length)
    (hfmt : s.have_fmt = false) (hfo : le16 (P.take 2) = 1)
    (hch : le16 ((P.drop 2).take 2) = 1 ∨ le16 ((P.drop 2).take 2) = 2) :
    walkLoop (n + 1) s ⟨A ++ (fmtID ++ (L ++ (P ++ R))), A.length, false⟩
      = walkLoop n
          { s with have_fmt := true, format := le16 (P.take 2)
                   channels := le16 ((P.drop 2).take 2), freq := le32 ((P.drop 4).take 4)
                   byte_per_sec := le32 ((P.drop 8).take 4)
                   blocksize := le16 ((P.drop 12).take 2), bits := le16 ((P.drop 14).take 2) }
          ⟨(((A ++ fmtID) ++ L) ++ P) ++ R, (((A ++ fmtID) ++ L) ++ P).length, false⟩ := by
  have hdata : P ++ R = P.take 2 ++ ((P.drop 2).take 2 ++ ((P.drop 4).take 4
      ++ ((P.drop 8).take 4 ++ ((P.drop 12).take 2 ++ ((P.drop 14).take 2
      ++ (P.drop 16 ++ R)))))) := by
    conv_lhs => rw [fmt_payload_split P]
    simp only [List.append_assoc]
  rw [show (⟨A ++ (fmtID ++ (L ++ (P ++ R))), A.length, false⟩ : CFile)
      = ⟨A ++ (fmtID ++ (L ++ (P.take 2 ++ ((P.drop 2).take 2 ++ ((P.drop 4).take 4
          ++ ((P.drop 8).take 4 ++ ((P.drop 12).take 2 ++ ((P.drop 14).take 2
          ++ (P.drop 16 ++ R))))))))), A.length, false⟩ from by rw [hdata]]
  rw [walkLoop_fmt n s A L (P.take 2) ((P.drop 2).take 2) ((P.drop 4).take 4)
    ((P.drop 8).take 4) ((P.drop 12).take 2) ((P.drop 14).take 2) (P.drop 16 ++ R) hL
    (by simp only [List.length_take]; omega)
    (by simp only [List.length_take, List.length_drop]; omega)
    (by simp only [List.length_take, List.length_drop]; omega)
    (by simp only [List.length_take, List.length_drop]; omega)
    (by simp only [List.length_take, List.length_drop]; omega)
    (by simp only [List.length_take, List.length_drop]; omega)
    hfmt hfo hch]
  congr 1
  congr 1
  · simp only [List.append_assoc]
    rw [hdata]
  · simp only [List.length_append, hlen]

/-! ## Claims C7 and C10 -/

/-- Claim C7: when the encode path's chunk walk parses a `smpl` chunk
(any 4-byte length field, at least the fixed 60 payload bytes, as
written by this tool), the walk `break`s with: loop-start reset to 0
when it exceeds the sample count, loop-end clamped to the sample count
when it exceeds it, and loop-enabled set exactly when the raw loop-type
is 0 and the raw loop-end is positive. -/
theorem c7_smpl_loop_clamp (n : Nat) (s : WalkState) (A L P R : List Nat)
    (hL : L.length = 4) (hP : 60 ≤ P.length) (hHL : s.haveLoop = false) :
    ∃ s' f',
      walkLoop (n + 1) s ⟨A ++ (smplID ++ (L ++ (P ++ R))), A.length, false⟩
        = Except.ok (s', f')
      ∧ s'.startLoop = (if le32 ((P.drop 44).take 4) > s.nSampleLength then 0
          else le32 ((P.drop 44).take 4))
      ∧ s'.endLoop = (if le32 ((P.drop 48).take 4) > s.nSampleLength then s.nSampleLength
          else le32 ((P.drop 48).take 4))
      ∧ (s'.haveLoop = true
          ↔ (le32 ((P.drop 40).take 4) = 0 ∧ le32 ((P.drop 48).take 4) > 0)) := by
  obtain ⟨f', hf⟩ := walkLoop_smpl_slices n s A L P R hL hP
  refine ⟨_, f', hf, rfl, rfl, ?_⟩
  show (if le32 ((P.drop 40).take 4) = 0 ∧ le32 ((P.drop 48).take 4) > 0 then true
      else s.haveLoop) = true ↔ _
  rw [hHL]
  split_ifs with h
  · simp [h]
  · simp [h]

/-- Sample state and payload used to witness the loop clamping. -/
def c7S : WalkState := { walkInit with nSampleLength := 10 }

def c7P : List Nat :=
  List.replicate 40 0 ++ u32le 0 ++ u32le 5 ++ u32le 99 ++ List.replicate 8 0

theorem c7_smpl_loop_clamp_witness :
    ∃ s' f',
      walkLoop 1 c7S ⟨[] ++ (smplID ++ (u32le 60 ++ (c7P ++ []))),
          ([] : List Nat).length, false⟩
        = Except.ok (s', f')
      ∧ s'.startLoop = (if le32 ((c7P.drop 44).take 4) > c7S.nSampleLength then 0
          else le32 ((c7P.drop 44).take 4))
      ∧ s'.endLoop = (if le32 ((c7P.drop 48).take 4) > c7S.nSampleLength
          then c7S.nSampleLength else le32 ((c7P.drop 48).take 4))
      ∧ (s'.haveLoop = true
          ↔ (le32 ((c7P.drop 40).take 4) = 0 ∧ le32 ((c7P.drop 48).take 4) > 0)) :=
  c7_smpl_loop_clamp 0 c7S [] (u32le 60) c7P [] (by decide) (by decide) (by decide)

theorem u32le_length (v : Nat) : (u32le v).length = 4 := rfl

theorem le32_u32le (v : Nat) (h : v < 4294967296) : le32 (u32le v) = v := by
  show v % 256 + 256 * (v / 256 % 256) + 65536 * (v / 65536 % 256)
      + 16777216 * (v / 16777216 % 256) = v
  omega

/-- Chunks the walk passes over without error before reaching a `smpl`
chunk: none is `data` or `smpl`, and any `fmt ` chunk is the first one
and carries PCM format 1 with 1 or 2 channels. -/
def PreChunksOK : Bool → List (List Nat × List Nat) → Prop
  | _, [] => True
  | hf, c :: cs =>
    c.1.length = 4 ∧ c.2.length < 4294967296 ∧ c.1 ≠ dataID ∧ c.1 ≠ smplID ∧
    (if c.1 = fmtID then
      hf = false ∧ 16 ≤ c.2.length ∧ le16 (c.2.take 2) = 1
        ∧ (le16 ((c.2.drop 2).take 2) = 1 ∨ le16 ((c.2.drop 2).take 2) = 2)
        ∧ PreChunksOK true cs
     else PreChunksOK hf cs)

/-- Running the walk over any passable chunks followed by a `smpl` chunk:
the walk `break`s at the `smpl` chunk with the sample length, PCM size
and PCM data untouched and with the clamped loop values. -/
theorem walkLoop_pre_smpl :
    ∀ (cs : List (List Nat × List Nat)) (n : Nat) (s : WalkState) (A P R : List Nat),
      PreChunksOK s.have_fmt cs → 60 ≤ P.length → cs.length + 1 ≤ n →
      ∃ s' f',
        walkLoop n s
            ⟨A ++ (serializeChunks cs ++ (serializeChunk (smplID, P) ++ R)),
             A.length, false⟩
          = Except.ok (s', f')
        ∧ s'.nSampleLength = s.nSampleLength
        ∧ s'.pcmsize = s.pcmsize
        ∧ s'.pcmdata = s.pcmdata
        ∧ s'.startLoop = (if le32 ((P.drop 44).take 4) > s.nSampleLength then 0
            else le32 ((P.drop 44).take 4))
        ∧ s'.endLoop = (if le32 ((P.drop 48).take 4) > s.nSampleLength then s.nSampleLength
            else le32 ((P.drop 48).take 4))
        ∧ (s.haveLoop = false →
            (s'.haveLoop = true ↔ (le32 ((P.drop 40).take 4) = 0
              ∧ le32 ((P.drop 48).take 4) > 0))) := by
  intro cs
  induction cs with
  | nil =>
    intro n s A P R hok hP hn
    obtain ⟨m, rfl⟩ : ∃ m, n = m + 1 := ⟨n - 1, by omega⟩
    have hdata : serializeChunks [] ++ (serializeChunk (smplID, P) ++ R)
        = smplID ++ (u32le P.length ++ (P ++ R)) := by
      simp [serializeChunks, serializeChunk, List.append_assoc]
    rw [hdata]
    obtain ⟨f', hf⟩ := walkLoop_smpl_slices m s A (u32le P.length) P R rfl hP
    refine ⟨_, f', hf, rfl, rfl, rfl, rfl, rfl, ?_⟩
    intro hHL
    show (if le32 ((P.drop 40).take 4) = 0 ∧ le32 ((P.drop 48).take 4) > 0 then true
        else s.haveLoop) = true ↔ _
    rw [hHL]
    split_ifs with h
    · simp [h]
    · simp [h]
  | cons c cs ih =>
    intro n s A P R hok hP hn
    obtain ⟨m, rfl⟩ : ∃ m, n = m + 1 := ⟨n - 1, by omega⟩
    obtain ⟨hid4, h32, hnd, hns, hrest⟩ := hok
    have hser : serializeChunks (c :: cs) ++ (serializeChunk (smplID, P) ++ R)
        = c.1 ++ (u32le c.2.length
            ++ (c.2 ++ (serializeChunks cs ++ (serializeChunk (smplID, P) ++ R)))) := by
      simp [serializeChunks, serializeChunk, List.append_assoc]
    rw [hser]
    by_cases hcf : c.1 = fmtID
    · rw [if_pos hcf] at hrest
      obtain ⟨hhf, h16, hfo, hch, hok2⟩ := hrest
      rw [hcf]
      rw [walkLoop_fmt_slices m s A (u32le c.2.length) c.2 _ rfl h16
        (le32_u32le _ h32) hhf hfo hch]
      exact ih m _ _ P R hok2 hP (by simp only [List.length_cons] at hn; omega)
    · rw [if_neg hcf] at hrest
      rw [walkLoop_skip m s A c.1 (u32le c.2.length) c.2 _ hid4 rfl
        (le32_u32le _ h32) hns hcf hnd]
      exact ih m s _ P R hrest hP (by simp only [List.length_cons] at hn; omega)

/-- Claim C10: when the input places a `smpl` chunk before any `data`
chunk, the chunk walk stops at the `smpl` chunk with no sample data
loaded, both loop bounds are clamped against the sample length 0 to 0,
and consequently the post-walk default disables looping and the writer
emits no `smpl` chunk — regardless of the chunk's loop values. -/
theorem c10_smpl_before_data (cs : List (List Nat × List Nat)) (n : Nat) (A P R : List Nat)
    (hok : PreChunksOK false cs) (hP : 60 ≤ P.length) (hn : cs.length + 1 ≤ n) :
    ∃ s' f',
      walkLoop n walkInit
          ⟨A ++ (serializeChunks cs ++ (serializeChunk (smplID, P) ++ R)),
           A.length, false⟩
        = Except.ok (s', f')
      ∧ s'.pcmdata = []
      ∧ s'.pcmsize = 0
      ∧ s'.startLoop = 0
      ∧ s'.endLoop = 0
      ∧ (applyDefaultLoop s').haveLoop = false
      ∧ smplOut (applyDefaultLoop s') = none := by
  obtain ⟨s', f', hw, hn1, hn2, hn3, h4, h5, h6⟩ :=
    walkLoop_pre_smpl cs n walkInit A P R hok hP hn
  have h0 : walkInit.nSampleLength = 0 := rfl
  rw [h0] at h4 h5
  have hsl : s'.startLoop = 0 := by
    rw [h4]
    split_ifs with h
    · rfl
    · omega
  have hel : s'.endLoop = 0 := by
    rw [h5]
    split_ifs with h
    · rfl
    · omega
  refine ⟨s', f', hw, by rw [hn3]; rfl, by rw [hn2]; rfl, hsl, hel, ?_, ?_⟩
  · simp [applyDefaultLoop, hel]
  · simp [smplOut, applyDefaultLoop, hel]

theorem c10_smpl_before_data_witness :
    ∃ s' f',
      walkLoop 1 walkInit
          ⟨[] ++ (serializeChunks [] ++ (serializeChunk (smplID, c7P) ++ [])),
           ([] : List Nat).length, false⟩
        = Except.ok (s', f')
      ∧ s'.pcmdata = []
      ∧ s'.pcmsize = 0
      ∧ s'.startLoop = 0
      ∧ s'.endLoop = 0
      ∧ (applyDefaultLoop s').haveLoop = false
      ∧ smplOut (applyDefaultLoop s') = none :=
  c10_smpl_before_data [] 1 [] c7P [] trivial (by decide) (by decide)
